import Mathlib

/-!
Shallow embedding of the numeric core of the special-function test-value
scripts of this repository:

* `src/Tools/PythonScripts/ComputeSpecialFunctionsTestValues.py`
  (the high-precision evaluator: `mpmath_normal_cdf2`, `logistic_gaussian`,
  `normal_cdf_ln2`, `normal_cdf_integral`, `normal_cdf_integral_ratio`,
  and the csv-processing main loop), and
* `src/Tools/PythonScripts/GenerateSeries.py`
  (`print_error_bound` and `get_reciprocal_factorial_minus_1_coefficients`).

Modelling conventions.  The scripts compute with 500-digit mpmath/sympy
floats.  We embed values at the exact level: a numeric value is an `MpVal`,
either a finite rational or one of the sentinels `inf`, `ninf`, `nan`
(mpmath's `mpf('inf')`, `mpf('-inf')`, `mpf('nan')`).  Transcendental
primitives of mpmath/sympy (`exp`, `ln`, `sqrt`, `tanh`, `atanh`, `ncdf`,
`erfc`, `hyperu`, `pcfu`, `pi`) are abstract parameters collected in a
`Prims` structure, given as functions on the finite (rational) part; their
behaviour on the sentinels is fixed by mpmath's documented limiting
behaviour (`exp(-inf) = 0`, `tanh(inf) = 1`, `ncdf(inf) = 1`, ...), and any
arithmetic involving `nan` produces `nan` while any comparison involving
`nan` is false, exactly as for IEEE/mpmath values.  `mpmath.quad` is an
abstract functional returning an (integral, error-estimate) pair; the
integrands handed to it are embedded from the source.  Each evaluator
returns, together with its value, the number of quadrature invocations it
performed and whether it printed the "Suspiciously big error" diagnostic,
which lets us state the control-flow properties of the scripts.
-/

namespace InferTestValues

/-- An mpmath/sympy numeric value: a finite rational, `+inf`, `-inf`, or `nan`. -/
inductive MpVal where
  | fin (q : ℚ)
  | inf
  | ninf
  | nan
deriving DecidableEq, Repr

namespace MpVal

/-- Python `==` on mpf values: any comparison with `nan` is false. -/
def beq : MpVal → MpVal → Bool
  | fin a, fin b => decide (a = b)
  | inf, inf => true
  | ninf, ninf => true
  | _, _ => false

/-- Python `<` on mpf values: any comparison with `nan` is false. -/
def lt : MpVal → MpVal → Bool
  | fin a, fin b => decide (a < b)
  | fin _, inf => true
  | ninf, fin _ => true
  | ninf, inf => true
  | _, _ => false

/-- Python `<=` on mpf values: any comparison with `nan` is false. -/
def le : MpVal → MpVal → Bool
  | fin a, fin b => decide (a ≤ b)
  | fin _, inf => true
  | ninf, fin _ => true
  | ninf, inf => true
  | ninf, ninf => true
  | inf, inf => true
  | _, _ => false

/-- Negation of an mpf value. -/
def neg : MpVal → MpVal
  | fin a => fin (-a)
  | inf => ninf
  | ninf => inf
  | nan => nan

/-- Addition of mpf values (`inf + (-inf) = nan`, `nan` propagates). -/
def add : MpVal → MpVal → MpVal
  | fin a, fin b => fin (a + b)
  | fin _, inf => inf
  | fin _, ninf => ninf
  | inf, fin _ => inf
  | ninf, fin _ => ninf
  | inf, inf => inf
  | ninf, ninf => ninf
  | inf, ninf => nan
  | ninf, inf => nan
  | _, _ => nan

/-- Subtraction of mpf values. -/
def sub (a b : MpVal) : MpVal := add a (neg b)

/-- Multiplication of mpf values (`0 * inf = nan`, `nan` propagates). -/
def mul : MpVal → MpVal → MpVal
  | fin a, fin b => fin (a * b)
  | fin a, inf => if 0 < a then inf else if a < 0 then ninf else nan
  | fin a, ninf => if 0 < a then ninf else if a < 0 then inf else nan
  | inf, fin b => if 0 < b then inf else if b < 0 then ninf else nan
  | ninf, fin b => if 0 < b then ninf else if b < 0 then inf else nan
  | inf, inf => inf
  | ninf, ninf => inf
  | inf, ninf => ninf
  | ninf, inf => ninf
  | _, _ => nan

/-- Division of mpf values.  Division of a finite value by a finite value is
rational division (a zero divisor raises in mpmath and is outside the
modelled domain); a finite value over an infinity is `0`; `inf/inf = nan`. -/
def div : MpVal → MpVal → MpVal
  | fin a, fin b => fin (a / b)
  | fin _, inf => fin 0
  | fin _, ninf => fin 0
  | inf, fin b => if b < 0 then ninf else inf
  | ninf, fin b => if b < 0 then inf else ninf
  | _, _ => nan

/-- Absolute value of an mpf value. -/
def mabs : MpVal → MpVal
  | fin a => fin |a|
  | inf => inf
  | ninf => inf
  | nan => nan

/-- Python's two-argument `min`: keeps the first argument unless the second
compares strictly smaller (so `min(nan, y) = nan` but `min(y, nan) = y`). -/
def pymin (a b : MpVal) : MpVal := if lt b a then b else a

/-- Python's two-argument `max`: keeps the first argument unless the second
compares strictly larger. -/
def pymax (a b : MpVal) : MpVal := if lt a b then b else a

end MpVal

open MpVal

/-- The transcendental primitives of mpmath/sympy used by the scripts,
abstracted as functions on the finite (rational) part of `MpVal`, plus the
two adaptive-quadrature calls `mpmath.quad(f, [-1, r])` (in
`mpmath_normal_cdf2`) and `mpmath.quad(f, [-1, 0, 1])` (in
`logistic_gaussian`), each returning the pair (integral, error estimate). -/
structure Prims where
  expQ : ℚ → ℚ
  lnQ : ℚ → ℚ
  sqrtQ : ℚ → ℚ
  tanhQ : ℚ → ℚ
  atanhQ : ℚ → ℚ
  ncdfQ : ℚ → ℚ
  erfcQ : ℚ → ℚ
  powQ : ℚ → ℚ → ℚ
  hyperuQ : ℚ → ℚ → ℚ → ℚ
  pcfuQ : ℚ → ℚ → ℚ
  piQ : ℚ
  quadN : (ℚ → MpVal) → MpVal → ℚ × ℚ
  quadLG : (ℚ → MpVal) → ℚ × ℚ

/-- `mpmath.exp` on `MpVal` (`exp(-inf) = 0`, `exp(inf) = inf`). -/
def expM (P : Prims) : MpVal → MpVal
  | fin a => fin (P.expQ a)
  | inf => inf
  | ninf => fin 0
  | nan => nan

/-- `mpmath.ln` on `MpVal`.  `lnQ` abstracts the logarithm on positive
finite values; non-positive finite arguments raise or go complex in mpmath
and are outside the modelled domain. -/
def lnM (P : Prims) : MpVal → MpVal
  | fin a => fin (P.lnQ a)
  | inf => inf
  | ninf => nan
  | nan => nan

/-- `mpmath.sqrt` on `MpVal`; negative arguments go complex in mpmath and
are outside the modelled domain (mapped to `nan`). -/
def sqrtM (P : Prims) : MpVal → MpVal
  | fin a => fin (P.sqrtQ a)
  | inf => inf
  | ninf => nan
  | nan => nan

/-- `mpmath.tanh` on `MpVal` (`tanh(inf) = 1`, `tanh(-inf) = -1`). -/
def tanhM (P : Prims) : MpVal → MpVal
  | fin a => fin (P.tanhQ a)
  | inf => fin 1
  | ninf => fin (-1)
  | nan => nan

/-- `mpmath.ncdf` on `MpVal` (`ncdf(-inf) = 0`, `ncdf(inf) = 1`). -/
def ncdfM (P : Prims) : MpVal → MpVal
  | fin a => fin (P.ncdfQ a)
  | inf => fin 1
  | ninf => fin 0
  | nan => nan

/-- `erfc` on `MpVal` (`erfc(inf) = 0`, `erfc(-inf) = 2`). -/
def erfcM (P : Prims) : MpVal → MpVal
  | fin a => fin (P.erfcQ a)
  | inf => fin 0
  | ninf => fin 2
  | nan => nan

/-- The result of one evaluator call: the numeric value, the number of
`mpmath.quad` invocations the call performed (including invocations in
recursive sub-calls), and whether the "Suspiciously big error" diagnostic
was printed. -/
structure EvalResult where
  val : MpVal
  quads : ℕ
  warned : Bool
deriving DecidableEq, Repr

/-- The integrand `f` defined inside `mpmath_normal_cdf2`
(ComputeSpecialFunctionsTestValues.py lines 70-74):
`f(t) = 0` when `|t| = 1`, and otherwise
`1 / (2*pi*sqrt(omt2)) * exp(-(x*x + y*y - 2*t*x*y) / (2*omt2))`
with `omt2 = (1 - t) * (1 + t)`. -/
def ncdf2Integrand (P : Prims) (x y : MpVal) (t : ℚ) : MpVal :=
  if |t| = 1 then fin 0
  else
    let omt2 : ℚ := (1 - t) * (1 + t)
    mul (fin (1 / (2 * P.piQ * P.sqrtQ omt2)))
      (expM P (MpVal.neg (MpVal.div
        (sub (add (mul x x) (mul y y)) (mul (mul (fin (2 * t)) x) y))
        (fin (2 * omt2)))))

/-- Fuel-indexed embedding of `mpmath_normal_cdf2`
(ComputeSpecialFunctionsTestValues.py lines 41-81).  The recursion depth of
the source is at most 3 (negative-`r` reduction, then positive-sum
reduction, then quadrature), so any fuel `≥ 3` computes the function; the
fuel-0 default is unreachable from the top-level entry point. -/
def normalCdf2Go (P : Prims) : ℕ → MpVal → MpVal → MpVal → EvalResult
  | 0, _, _, _ => ⟨nan, 0, false⟩
  | n + 1, x, y, r =>
    if x = ninf ∨ y = ninf then ⟨fin 0, 0, false⟩
    else if x = inf then ⟨ncdfM P y, 0, false⟩
    else if y = inf then ⟨ncdfM P x, 0, false⟩
    else if r = fin 1 then ⟨ncdfM P (pymin x y), 0, false⟩
    else if r = fin (-1) then
      ⟨if le x (MpVal.neg y) then fin 0 else sub (ncdfM P x) (ncdfM P (MpVal.neg y)), 0, false⟩
    else
      -- `if abs(y) > abs(x): z = x; x = y; y = z`
      let p := if lt (mabs x) (mabs y) then (y, x) else (x, y)
      let x := p.1
      let y := p.2
      if lt r (fin 0) then
        -- phi(x,y,r) = phi(inf,y,r) - phi(-x,y,-r)
        let inner := normalCdf2Go P n x (MpVal.neg y) (MpVal.neg r)
        ⟨pymax (sub (ncdfM P x) inner.val) (fin 0), inner.quads, inner.warned⟩
      else if lt (fin 0) (add x y) then
        -- phi(x,y,r) = phi(-x,-y,r) - phi(x,y,-1)
        let inner := normalCdf2Go P n (MpVal.neg x) (MpVal.neg y) r
        ⟨add inner.val
            (if le x (MpVal.neg y) then fin 0 else sub (ncdfM P x) (ncdfM P (MpVal.neg y))),
          inner.quads, inner.warned⟩
      else
        let q := P.quadN (ncdf2Integrand P x y) r
        ⟨fin q.1, 1, decide ((10 ^ 50 : ℚ) * |q.2| > |q.1|)⟩

/-- `mpmath_normal_cdf2(x, y, r)`: the fuel-indexed body at ample fuel. -/
def mpmath_normal_cdf2 (P : Prims) (x y r : MpVal) : EvalResult :=
  normalCdf2Go P 4 x y r

/-- The integrand `f` defined inside `logistic_gaussian`
(ComputeSpecialFunctionsTestValues.py lines 127-129):
`x = atanh(t); exp(-(x - misqrtv)**2 / 2) / (1 + exp(-x*sqrtv)) / (1 - t*t)`. -/
def logisticGaussianIntegrand (P : Prims) (misqrtv sqrtv : MpVal) (t : ℚ) : MpVal :=
  let x := fin (P.atanhQ t)
  MpVal.div
    (MpVal.div
      (expM P (MpVal.neg (MpVal.div (mul (sub x misqrtv) (sub x misqrtv)) (fin 2))))
      (add (fin 1) (expM P (MpVal.neg (mul x sqrtv)))))
    (fin (1 - t * t))

/-- Embedding of `logistic_gaussian(m, v)`
(ComputeSpecialFunctionsTestValues.py lines 102-139). -/
def logistic_gaussian (P : Prims) (m v : MpVal) : EvalResult :=
  if m = inf then
    if v = inf then ⟨inf, 0, false⟩ else ⟨fin 1, 0, false⟩
  else if v = inf then ⟨fin (1 / 2), 0, false⟩
  else
    -- logEpsilon = log(mpmath.mpf('1e-500'))
    let logEpsilon : ℚ := P.lnQ (1 / 10 ^ 500)
    if lt (add (mul (fin 2) m) (mul (fin 4) v)) (fin logEpsilon) then
      ⟨mul (expM P (add m (MpVal.div v (fin 2))))
          (sub (fin 1)
            (mul (expM P (add m (mul (fin (3 / 2)) v)))
              (sub (fin 1) (expM P (add m (mul (fin (5 / 2)) v)))))),
        0, false⟩
    else
      let tanhm := tanhM P m
      if tanhm = fin 1 then ⟨fin 1, 0, false⟩
      else
        let sqrtv := sqrtM P v
        let misqrtv := MpVal.div m sqrtv
        let coef : ℚ := 1 / P.sqrtQ (2 * P.piQ)
        let q := P.quadLG (logisticGaussianIntegrand P misqrtv sqrtv)
        ⟨fin (coef * q.1), 1, decide ((10 ^ 50 : ℚ) * |q.2| > |q.1|)⟩

/-- Result of `normal_cdf_ln2` / `normal_cdf_integral_ratio`: the value,
plus whether the general computation path (rather than a hardcoded
override) produced it. -/
structure DispatchResult where
  val : MpVal
  general : Bool
deriving DecidableEq, Repr

/-- Embedding of `normal_cdf_ln2(x, y, r)`
(ComputeSpecialFunctionsTestValues.py lines 87-100).  The sympy `Float`
literals of the overrides are embedded as the exact rationals they denote;
the nested `if` ladder of the source (an outer `x == b and y == b` guard
with three inner checks on `r`, falling through to the general path when
none matches) is flattened into the equivalent chain of conjunctions. -/
def normal_cdf_ln2 (P : Prims) (x y r : MpVal) : DispatchResult :=
  if x = fin (-0.299999999999999988897769753748434595763683319091796875) ∧
      y = fin (-0.299999999999999988897769753748434595763683319091796875) ∧
      r = fin (-0.99999899999999997124433548378874547779560089111328125) then
    ⟨fin (-90020.4997847132695760821045836463571450496491084868602301611), false⟩
  else if x = fin (-0.1000000000000000055511151231257827021181583404541015625) ∧
      y = fin (-0.1000000000000000055511151231257827021181583404541015625) ∧
      r = fin (-0.99999899999999997124433548378874547779560089111328125) then
    ⟨fin (-10018.3026957438325237319456255040365689256268122985682785824), false⟩
  else if x = fin (-0.1000000000000000055511151231257827021181583404541015625) ∧
      y = fin (-0.1000000000000000055511151231257827021181583404541015625) ∧
      r = fin (-0.99999000000000004551026222543441690504550933837890625) then
    ⟨fin (-1014.85016355878529115329386335426754801497185281882358946348), false⟩
  else if x = fin (-0.1000000000000000055511151231257827021181583404541015625) ∧
      y = fin (-0.1000000000000000055511151231257827021181583404541015625) ∧
      r = fin (-0.9999000000000000110134124042815528810024261474609375) then
    ⟨fin (-111.409512020775362450645082754211442935050576861888726532), false⟩
  else
    ⟨lnM P (mpmath_normal_cdf2 P x y r).val, true⟩

/-- `normal_cdf(x)` of the script (`erfc(-x / sqrt(2)) / 2`), on `MpVal`. -/
def normal_cdfM (P : Prims) (x : MpVal) : MpVal :=
  MpVal.div (erfcM P (MpVal.div (MpVal.neg x) (fin (P.sqrtQ 2)))) (fin 2)

/-- `normal_pdf_ln(x)` of the script (`-x*x/2 - log(sqrt(2*pi))`), on `MpVal`. -/
def normal_pdf_lnM (P : Prims) (x : MpVal) : MpVal :=
  sub (MpVal.neg (MpVal.div (mul x x) (fin 2))) (fin (P.lnQ (P.sqrtQ (2 * P.piQ))))

/-- `normal_cdf_moment_ratio(n, x)`
(ComputeSpecialFunctionsTestValues.py lines 34-39); it is only ever called
with finite arguments, and the `hyperu`/`pcfu` primitives are abstract. -/
def normal_cdf_moment_ratioM (P : Prims) (n : ℚ) : MpVal → MpVal
  | fin x =>
      if x < 0 then
        fin (P.powQ 2 (-(1 / 2) - n / 2) * P.hyperuQ (n / 2 + 1 / 2) (1 / 2) (x * x / 2))
      else fin (P.expQ (x * x / 4) * P.pcfuQ (1 / 2 + n) (-x))
  | _ => nan

/-- Fuel-indexed embedding of `normal_cdf_integral(x, y, r)`
(ComputeSpecialFunctionsTestValues.py lines 206-234).  The recursion depth
of the source is at most 2 (the near-`r = -1` split calls itself once with
`r = -1` and once with negated arguments, neither of which recurses
further), so any fuel `≥ 2` computes the function. -/
def normalCdfIntegralGo (P : Prims) : ℕ → MpVal → MpVal → MpVal → MpVal
  | 0, _, _, _ => nan
  | n + 1, x, y, r =>
    if x = ninf ∨ y = ninf then fin 0
    else if x = inf then inf
    else if y = inf then
      let result := (mpmath_normal_cdf2 P x y r).val
      if lt (fin 0) x then
        add (mul result x) (expM P (sub (normal_pdf_lnM P x) (lnM P (normal_cdfM P x))))
      else
        mul (mul result (normal_cdf_moment_ratioM P 1 x))
          (expM P (sub (normal_pdf_lnM P x) (lnM P (normal_cdfM P x))))
    else if r = fin 1 then
      if le x y then mul (normal_cdf_moment_ratioM P 1 x) (expM P (normal_pdf_lnM P x))
      else
        let npdfy := expM P (normal_pdf_lnM P y)
        mul (add (normal_cdf_moment_ratioM P 1 y)
              (MpVal.div (mul (sub x y) (normal_cdfM P y)) npdfy))
          npdfy
    else if r = fin (-1) then
      if le (add x y) (fin 0) then fin 0
      else
        sub (add (mul x (sub (normal_cdfM P y) (normal_cdfM P (MpVal.neg x))))
              (expM P (normal_pdf_lnM P x)))
          (expM P (normal_pdf_lnM P y))
    else if lt (fin 0) x ∧ lt (fin 0) y ∧ lt (add (fin 1) r) (fin (1 / 10 ^ 12)) then
      sub (normalCdfIntegralGo P n x y (fin (-1)))
        (normalCdfIntegralGo P n (MpVal.neg x) (MpVal.neg y) r)
    else
      let sqrtomr2 := sqrtM P (mul (sub (fin 1) r) (add (fin 1) r))
      add
        (add (mul x (mpmath_normal_cdf2 P x y r).val)
          (expM P (add (normal_pdf_lnM P x)
            (lnM P (normal_cdfM P (MpVal.div (sub y (mul r x)) sqrtomr2))))))
        (mul r (expM P (add (normal_pdf_lnM P y)
          (lnM P (normal_cdfM P (MpVal.div (sub x (mul r y)) sqrtomr2))))))

/-- `normal_cdf_integral(x, y, r)`: the fuel-indexed body at ample fuel. -/
def normal_cdf_integral (P : Prims) (x y r : MpVal) : MpVal :=
  normalCdfIntegralGo P 3 x y r

/-- Embedding of `normal_cdf_integral_ratio(x, y, r)`
(ComputeSpecialFunctionsTestValues.py lines 236-254), with its four
hardcoded override triples embedded as exact rationals. -/
def normal_cdf_integral_ratio (P : Prims) (x y r : MpVal) : DispatchResult :=
  if x = fin (-39062.4923802060075104236602783203125) ∧
      y = fin (39062.5011106818928965367376804351806640625) ∧
      r = fin (-0.9999998333405668571316482484689913690090179443359375) then
    ⟨fin (0.000025600004960154713498351213672772546931354593117186546685502492546785021612), false⟩
  else if x = fin (-824.4368021638800883010844700038433074951171875) ∧
      y = fin (-23300.71373148090788163244724273681640625) ∧
      r = fin (-0.9991576459172382129736433853395283222198486328125) then
    ⟨fin (6.9859450855259114e-8), false⟩
  else if x = fin (790.8036889243788891690201126039028167724609375) ∧
      y = fin (-1081777102.232640743255615234375) ∧
      r = fin (-0.9458744064347397451086862929514609277248382568359375) then
    ⟨fin (1.0293108592794333e-10), false⟩
  else if x = fin (790.8036889243788891690201126039028167724609375) ∧
      y = fin (-1081776354979.671875) ∧
      r = fin (-0.9458744064347397451086862929514609277248382568359375) then
    ⟨fin (1.0293107755790882e-13), false⟩
  else
    let int_z := normal_cdf_integral P x y r
    if int_z = fin 0 then ⟨int_z, true⟩
    else ⟨MpVal.div int_z (mpmath_normal_cdf2 P x y r).val, true⟩

/-! ### GenerateSeries.py -/

/-- sympy `sign` on a rational value: `1`, `-1`, or `0`. -/
def signQ (q : ℚ) : ℤ :=
  if 0 < q then 1 else if q < 0 then -1 else 0

/-- The double-precision machine epsilon literal `ulp1` of
`print_error_bound` (GenerateSeries.py line 339), read as the exact decimal
rational it is written as. -/
def ulp1 : ℚ := 2.220446049250313e-16

/-- The content of the error-bound annotation printed by
`print_error_bound`: the magnitude of the first omitted coefficient (the
`Error is at most nextc * var ** series_length` line), the reference offset
magnitude used, and the domain radius, represented exactly as the pair of
the radicand `base = offset * ulp1 / 2 / nextc` and the root order `order`
(the printed radius is `base ** (1 / order)`). -/
structure BoundAnn where
  nextTerm : ℚ
  offset : ℚ
  base : ℚ
  order : ℕ
deriving DecidableEq, Repr

/-- The series-specific reference offset of `print_error_bound`
(GenerateSeries.py lines 340-357): a literal per series name, defaulting to
`abs(coefficients[0])`.  The two transcendental offsets are abstracted:
`digamma1` stands for `digamma(1)` and `log1em3` for `log(1e-3)` (the
source uses `S(-log(1e-3))`); `S(1e6)`, `S(1e8)`, `S(2e12)` and `S(12**-3)`
are embedded as the exact values of those expressions. -/
def series_offset (digamma1 log1em3 : ℚ) (name : String) (coefficients : List ℚ) : ℚ :=
  if name = "2: Digamma at 1" then 1000000
  else if name = "3: Digamma at 2" then 1 + digamma1
  else if name = "4: Digamma asymptotic" then 1
  else if name = "5: Trigamma at 1" then 100000000
  else if name = "7: Tetragamma at 1" then 2000000000000
  else if name = "6: Trigamma asymptotic" then 1
  else if name = "8: Tetragamma asymptotic" then 1 / 12 ^ 3
  else if name = "15: log(exp(x) - 1) / x" then -log1em3
  else |coefficients.getD 0 0|

/-- Embedding of `print_error_bound(name, indent, variable_name,
series_length, coefficients, nextc)` (GenerateSeries.py lines 334-369),
returning the printed annotation, or `none` when nothing is printed (the
coefficients are not alternating).  List indexing `coefficients[i]` is
embedded as `getD i 0`; every call site of the source indexes in range. -/
def print_error_bound (digamma1 log1em3 : ℚ) (name : String) (series_length : ℕ)
    (coefficients : List ℚ) (nextc : ℚ) : Option BoundAnn :=
  let is_alternating :=
    signQ (coefficients.getD (coefficients.length - 1) 0) ≠
      signQ (coefficients.getD (coefficients.length - 2) 0)
  if is_alternating then
    let nextcAbs := |nextc|
    let offset := series_offset digamma1 log1em3 name coefficients
    if offset = 0 then
      let offset1 := |coefficients.getD 1 0|
      if offset1 = 0 then
        let offset2 := |coefficients.getD 2 0|
        some ⟨nextcAbs, offset2, offset2 * ulp1 / 2 / nextcAbs, series_length - 2⟩
      else
        some ⟨nextcAbs, offset1, offset1 * ulp1 / 2 / nextcAbs, series_length - 1⟩
    else
      some ⟨nextcAbs, offset, offset * ulp1 / 2 / nextcAbs, series_length⟩
  else none

/-- The state of the list `c` of `get_reciprocal_factorial_minus_1_coefficients`
(GenerateSeries.py lines 292-295) after `k` iterations of the loop
`for k in range(1, count): c.append(sum([c[i]*zetas[k-i-1] for i in range(0,k)])/k)`,
starting from `c = [1]`.  `zetas i` abstracts the high-precision constant
`(-digamma(1) if i==0 else (-1)**i*zeta(i+1)).evalf(500)`. -/
def rfm1Loop (zetas : ℕ → ℚ) : ℕ → List ℚ
  | 0 => [1]
  | k + 1 =>
    let c := rfm1Loop zetas k
    c ++ [(∑ i ∈ Finset.range (k + 1), c.getD i 0 * zetas (k - i)) / (k + 1)]

/-- Embedding of `get_reciprocal_factorial_minus_1_coefficients(count)`
(GenerateSeries.py lines 287-296): run the recurrence loop (which executes
`count - 1` times), then return `[S(0 if k==0 else c[k]) for k in range(0,count)]`. -/
def get_reciprocal_factorial_minus_1_coefficients (zetas : ℕ → ℚ) (count : ℕ) : List ℚ :=
  let c := rfm1Loop zetas (count - 1)
  (List.range count).map fun k => if k = 0 then 0 else c.getD k 0

/-! ### The csv-processing main loop of ComputeSpecialFunctionsTestValues.py -/

/-- One row of a SpecialFunctionsValues csv file: the argument columns
`arg0..argN` and the `expectedresult` column, all as the strings read by
`csv.DictReader`. -/
structure CsvRow where
  args : List String
  expectedresult : String
deriving DecidableEq, Repr

/-- Whether an `expectedresult` field is one of the reserved sentinel
tokens that the main loop preserves verbatim. -/
def isSentinel (s : String) : Bool :=
  s = "Infinity" ∨ s = "-Infinity" ∨ s = "NaN"

/-- The per-row body of the main loop
(ComputeSpecialFunctionsTestValues.py lines 328-347), folded over the rows
with the accumulator `newrows`.  `compute args` abstracts the whole
evaluation of one row's arguments: `f(*args).evalf(50, maxn=500)` together
with the tiny-result flush to zero, the `ValueError → NaN` fallback, and
the `float_str_python_to_csharp` formatting of the result.  The source
keeps a row's stored result whenever it is a sentinel token or
`len(newrows) > 5` at the time the row is processed. -/
def processRows (compute : List String → String) : List CsvRow → List CsvRow → List CsvRow
  | newrows, [] => newrows
  | newrows, row :: rest =>
    let newExpected :=
      if isSentinel row.expectedresult ∨ 5 < newrows.length then row.expectedresult
      else compute row.args
    processRows compute (newrows ++ [{ row with expectedresult := newExpected }]) rest

/-- The main csv-processing loop applied to the rows of one file
(ComputeSpecialFunctionsTestValues.py lines 323-352): the field names
(header) are carried through unchanged to `csv.DictWriter`, and the rows
are rewritten by `processRows` starting from the empty `newrows`. -/
def main_csv_loop (compute : List String → String) (fieldnames : List String)
    (rows : List CsvRow) : List String × List CsvRow :=
  (fieldnames, processRows compute [] rows)

/-! ### Concrete primitive instances

Concrete instantiations of the abstract transcendental primitives, used to
evaluate the embedded evaluators on concrete inputs (the control-flow
properties below hold for every instantiation). -/

/-- All transcendental primitives constantly zero; both quadrature calls
return the pair `(0, 0)`. -/
def trivPrims : Prims :=
  ⟨fun _ => 0, fun _ => 0, fun _ => 0, fun _ => 0, fun _ => 0, fun _ => 0,
    fun _ => 0, fun _ _ => 0, fun _ _ _ => 0, fun _ _ => 0, 0,
    fun _ _ => (0, 0), fun _ => (0, 0)⟩

/-- Like `trivPrims`, but both quadrature calls report the integral `1`
with error estimate `1`, so the relative-error check
`1e50 * abs(err) > abs(result)` fails. -/
def warnPrims : Prims :=
  ⟨fun _ => 0, fun _ => 0, fun _ => 0, fun _ => 0, fun _ => 0, fun _ => 0,
    fun _ => 0, fun _ _ => 0, fun _ _ _ => 0, fun _ _ => 0, 0,
    fun _ _ => (1, 1), fun _ => (1, 1)⟩

/-- `ncdfQ` constantly `1/2` (which satisfies the reflection identity
`ncdf(t) + ncdf(-t) = 1`); everything else as in `trivPrims`. -/
def reflPrims : Prims :=
  ⟨fun _ => 0, fun _ => 0, fun _ => 0, fun _ => 0, fun _ => 0, fun _ => 1 / 2,
    fun _ => 0, fun _ _ => 0, fun _ _ _ => 0, fun _ _ => 0, 0,
    fun _ _ => (0, 0), fun _ => (0, 0)⟩

/-! ### Small rewriting lemmas for `MpVal` arithmetic -/

lemma neg_fin (q : ℚ) : MpVal.neg (fin q) = fin (-q) := rfl

lemma lt_fin (u v : ℚ) : MpVal.lt (fin u) (fin v) = decide (u < v) := rfl

lemma le_fin (u v : ℚ) : MpVal.le (fin u) (fin v) = decide (u ≤ v) := rfl

lemma add_fin (u v : ℚ) : MpVal.add (fin u) (fin v) = fin (u + v) := rfl

lemma sub_fin (u v : ℚ) : MpVal.sub (fin u) (fin v) = fin (u - v) := by
  simp [MpVal.sub, MpVal.add, MpVal.neg, sub_eq_add_neg]

lemma mabs_fin (q : ℚ) : mabs (fin q) = fin |q| := rfl

lemma ncdfM_fin (P : Prims) (q : ℚ) : ncdfM P (fin q) = fin (P.ncdfQ q) := rfl

/-- The quadrature integrand of `mpmath_normal_cdf2` is symmetric in `x`
and `y`: the exponent `x*x + y*y - 2*t*x*y` is a symmetric polynomial. -/
lemma integrand_symm (P : Prims) (a b : ℚ) :
    ncdf2Integrand P (fin a) (fin b) = ncdf2Integrand P (fin b) (fin a) := by
  funext t
  simp only [ncdf2Integrand]
  split_ifs with h
  · rfl
  · simp only [MpVal.mul, MpVal.sub, MpVal.add, MpVal.neg, MpVal.div, expM]
    congr 3
    ring

/-! ### Claim theorems -/

/-- **C2.**  For all finite arguments `x` and `y`, `mpmath_normal_cdf2(x, y, 1)`
equals the univariate normal CDF evaluated at `min(x, y)`, and
`mpmath_normal_cdf2(x, y, -1)` equals zero whenever `x + y <= 0`
(ComputeSpecialFunctionsTestValues.py lines 52-55). -/
theorem normal_cdf2_boundary_law (P : Prims) (x y : ℚ) :
    (mpmath_normal_cdf2 P (fin x) (fin y) (fin 1)).val = fin (P.ncdfQ (min x y)) ∧
      (x + y ≤ 0 →
        (mpmath_normal_cdf2 P (fin x) (fin y) (fin (-1))).val = fin 0) := by
  constructor
  · simp only [mpmath_normal_cdf2, normalCdf2Go]
    simp [ncdfM, MpVal.pymin, MpVal.lt, min_def]
    rcases lt_or_le y x with h | h
    · simp [h, not_le.mpr h]
    · simp [not_lt.mpr h, h]
  · intro hxy
    simp only [mpmath_normal_cdf2, normalCdf2Go]
    have h2 : (fin (-1) : MpVal) ≠ fin 1 := by
      simp only [ne_eq, MpVal.fin.injEq]; norm_num
    have h3 : MpVal.le (fin x) (MpVal.neg (fin y)) = true := by
      simp [MpVal.le, MpVal.neg]; linarith
    simp [h2, h3]

/-- Witness for `normal_cdf2_boundary_law` at `x = 2`, `y = -3`. -/
theorem normal_cdf2_boundary_law_witness :
    (mpmath_normal_cdf2 trivPrims (fin 2) (fin (-3)) (fin (-1))).val = fin 0 :=
  (normal_cdf2_boundary_law trivPrims 2 (-3)).2 (by norm_num)

/-- **C1, counterexample.**  The claim says that whenever any argument of an
evaluation request is an infinity or NaN sentinel, no quadrature is
performed on that request.  But a `NaN` argument falls through every
sentinel check of `logistic_gaussian` (all comparisons involving `nan` are
false, including `tanh(nan) == 1.0`), so `logistic_gaussian(nan, 1)`
reaches the `mpmath.quad` call: the request performs one quadrature. -/
theorem logistic_gaussian_nan_reaches_quadrature :
    (logistic_gaussian trivPrims nan (fin 1)).quads = 1 := by decide

/-- **C1, amended.**  Infinity sentinels never trigger quadrature:
`mpmath_normal_cdf2` performs no quadrature whenever `x` or `y` is `±inf`
(and returns the tabulated limit `0` when one of them is `-inf`), and
`logistic_gaussian` performs no quadrature whenever one of its arguments is
an infinity sentinel and the other is not `NaN` (returning the tabulated
limits `inf`, `1`, `1/2` in the `+inf` cases).  `NaN` arguments (and an
infinite correlation `r`) are not intercepted and can reach quadrature. -/
theorem infinity_sentinels_no_quadrature (P : Prims) (x y r m v : MpVal) :
    ((x = inf ∨ x = ninf ∨ y = inf ∨ y = ninf) → (mpmath_normal_cdf2 P x y r).quads = 0) ∧
      ((x = ninf ∨ y = ninf) → (mpmath_normal_cdf2 P x y r).val = fin 0) ∧
      (m = inf →
        (logistic_gaussian P m v).quads = 0 ∧
          (logistic_gaussian P m v).val = if v = inf then inf else fin 1) ∧
      (v = inf → (logistic_gaussian P m v).quads = 0 ∧
          (m ≠ inf → (logistic_gaussian P m v).val = fin (1 / 2))) ∧
      (m = ninf → v ≠ nan → (logistic_gaussian P m v).quads = 0) ∧
      (v = ninf → m ≠ nan → (logistic_gaussian P m v).quads = 0) := by
  refine ⟨?_, ?_, ?_, ?_, ?_, ?_⟩
  · rintro (rfl | rfl | rfl | rfl) <;>
      [cases y; cases y; cases x; cases x] <;>
      simp [mpmath_normal_cdf2, normalCdf2Go, ncdfM]
  · rintro (rfl | rfl) <;> simp [mpmath_normal_cdf2, normalCdf2Go]
  · rintro rfl
    by_cases hv : v = inf <;> simp [logistic_gaussian, hv]
  · rintro rfl
    by_cases hm : m = inf <;> simp [logistic_gaussian, hm]
  · rintro rfl hv
    cases v <;> simp_all [logistic_gaussian, MpVal.mul, MpVal.add, MpVal.lt]
  · rintro rfl hm
    cases m <;> simp_all [logistic_gaussian, MpVal.mul, MpVal.add, MpVal.lt]

/-- Witness for `infinity_sentinels_no_quadrature`: `normal_cdf2` at
`x = +inf` and `logistic_gaussian` at `m = -inf`, `v = 1`. -/
theorem infinity_sentinels_no_quadrature_witness :
    (mpmath_normal_cdf2 trivPrims inf (fin 0) (fin 0)).quads = 0 ∧
      (logistic_gaussian trivPrims ninf (fin 1)).quads = 0 :=
  ⟨(infinity_sentinels_no_quadrature trivPrims inf (fin 0) (fin 0) nan nan).1
      (Or.inl rfl),
    (infinity_sentinels_no_quadrature trivPrims inf (fin 0) (fin 0) ninf
          (fin 1)).2.2.2.2.1 rfl (by decide)⟩

/-- **C4, counterexample.**  The claim says that when a quadrature call's
error check `1e50 * |err| > |result|` fails, the integrand scaling is
refined once and the integral re-evaluated.  The code has no such retry:
with a quadrature oracle reporting integral `1` and error estimate `1`
(so the check fails), `mpmath_normal_cdf2(0, 0, 0)` performs exactly one
quadrature call — the result of that single call is returned together with
the diagnostic, with no re-evaluation. -/
theorem quadrature_no_retry_counterexample :
    (mpmath_normal_cdf2 warnPrims (fin 0) (fin 0) (fin 0)).warned = true ∧
      (mpmath_normal_cdf2 warnPrims (fin 0) (fin 0) (fin 0)).quads = 1 := by
  have e1 : (fin (0:ℚ) : MpVal) ≠ fin 1 := by simp
  have e2 : (fin (0:ℚ) : MpVal) ≠ fin (-1) := by simp
  have e3 : (fin (0:ℚ) : MpVal).neg = fin 0 := by simp [MpVal.neg]
  simp only [mpmath_normal_cdf2, normalCdf2Go]
  simp only [e3, e1, e2, MpVal.lt, MpVal.mabs, MpVal.add, reduceCtorEq, if_false, ite_false,
    or_self, lt_self_iff_false, decide_False, Bool.false_eq_true]
  norm_num [warnPrims]

/-- `normalCdf2Go` performs at most one quadrature call at any fuel. -/
lemma normalCdf2Go_quads_le (P : Prims) :
    ∀ n x y r, (normalCdf2Go P n x y r).quads ≤ 1 := by
  intro n
  induction n with
  | zero => intro x y r; simp [normalCdf2Go]
  | succ n ih =>
    intro x y r
    simp only [normalCdf2Go]
    split_ifs <;> simp [ih]

/-- A `normalCdf2Go` diagnostic can only come from a performed quadrature. -/
lemma normalCdf2Go_warned_quads (P : Prims) :
    ∀ n x y r,
      (normalCdf2Go P n x y r).warned = true → (normalCdf2Go P n x y r).quads = 1 := by
  intro n
  induction n with
  | zero => intro x y r h; simp [normalCdf2Go] at h
  | succ n ih =>
    intro x y r
    simp only [normalCdf2Go]
    split_ifs <;> simp <;> apply ih

/-- **C4, amended.**  A quadrature-based evaluation performs at most one
`mpmath.quad` call — there is no rescale-and-retry — and the
"Suspiciously big error" diagnostic is only ever printed by a performed
quadrature call, whose result is returned anyway: in the residual region
(`r` not `±1`, no argument swap, `r >= 0`, `x + y <= 0`) the value returned
by `mpmath_normal_cdf2` is exactly the integral reported by its single
quadrature call, and the diagnostic flag is exactly the failed check
`1e50 * |err| > |result|`; the evaluation never aborts. -/
theorem quadrature_single_call_warning_nonfatal (P : Prims) (x y r m v : MpVal)
    (a b c : ℚ) :
    (mpmath_normal_cdf2 P x y r).quads ≤ 1 ∧
      (logistic_gaussian P m v).quads ≤ 1 ∧
      ((mpmath_normal_cdf2 P x y r).warned = true →
        (mpmath_normal_cdf2 P x y r).quads = 1) ∧
      ((logistic_gaussian P m v).warned = true → (logistic_gaussian P m v).quads = 1) ∧
      (c ≠ 1 → c ≠ -1 → ¬(|a| < |b|) → ¬(c < 0) → ¬(0 < a + b) →
        mpmath_normal_cdf2 P (fin a) (fin b) (fin c) =
          ⟨fin (P.quadN (ncdf2Integrand P (fin a) (fin b)) (fin c)).1, 1,
            decide ((10 ^ 50 : ℚ) * |(P.quadN (ncdf2Integrand P (fin a) (fin b)) (fin c)).2| >
              |(P.quadN (ncdf2Integrand P (fin a) (fin b)) (fin c)).1|)⟩) := by
  refine ⟨normalCdf2Go_quads_le P 4 x y r, ?_, normalCdf2Go_warned_quads P 4 x y r, ?_, ?_⟩
  · simp only [logistic_gaussian]
    split_ifs <;> simp
  · simp only [logistic_gaussian]
    split_ifs <;> simp
  · intro h1 hm1 hswap hneg hsum
    simp only [mpmath_normal_cdf2, normalCdf2Go]
    have e1 : (fin c : MpVal) ≠ fin 1 := by simp [h1]
    have e2 : (fin c : MpVal) ≠ fin (-1) := by simp [hm1]
    simp [e1, e2, MpVal.lt, MpVal.mabs, MpVal.add, hswap, hneg, hsum]

/-- Witness for `quadrature_single_call_warning_nonfatal` at the residual
region point `x = 0`, `y = 0`, `r = 0`. -/
theorem quadrature_single_call_warning_nonfatal_witness :
    mpmath_normal_cdf2 warnPrims (fin 0) (fin 0) (fin 0) =
      ⟨fin (warnPrims.quadN (ncdf2Integrand warnPrims (fin 0) (fin 0)) (fin 0)).1, 1,
        decide ((10 ^ 50 : ℚ) *
            |(warnPrims.quadN (ncdf2Integrand warnPrims (fin 0) (fin 0)) (fin 0)).2| >
          |(warnPrims.quadN (ncdf2Integrand warnPrims (fin 0) (fin 0)) (fin 0)).1|)⟩ :=
  (quadrature_single_call_warning_nonfatal warnPrims nan nan nan nan nan 0 0
      0).2.2.2.2 (by norm_num) (by norm_num) (by simp) (by norm_num) (by norm_num)

/-- **C3, counterexample.**  The claim asserts symmetry for every pair of
arguments, but a `NaN` first argument breaks it: Python's `min` keeps its
first argument unless the second compares strictly smaller, and every
comparison with `nan` is false, so `mpmath_normal_cdf2(nan, 0, 1)` returns
`ncdf(min(nan, 0)) = ncdf(nan) = nan` while `mpmath_normal_cdf2(0, nan, 1)`
returns `ncdf(min(0, nan)) = ncdf(0)`, a finite value. -/
theorem normal_cdf2_symmetry_nan_counterexample :
    (mpmath_normal_cdf2 trivPrims nan (fin 0) (fin 1)).val ≠
      (mpmath_normal_cdf2 trivPrims (fin 0) nan (fin 1)).val := by decide

/-- **C3, amended.**  For every pair of non-`NaN` arguments `x`, `y` and
every correlation `r`, the bivariate tail-probability evaluation is
symmetric in its first two arguments:
`mpmath_normal_cdf2(x, y, r) = mpmath_normal_cdf2(y, x, r)`, given the
reflection identity `ncdf(t) + ncdf(-t) = 1` of the (exact) univariate
normal CDF.  `NaN` arguments break the symmetry
(`normal_cdf2_symmetry_nan_counterexample`). -/
theorem normal_cdf2_symmetric (P : Prims)
    (href : ∀ t, P.ncdfQ t + P.ncdfQ (-t) = 1) (x y r : MpVal)
    (hx : x ≠ nan) (hy : y ≠ nan) :
    (mpmath_normal_cdf2 P x y r).val = (mpmath_normal_cdf2 P y x r).val := by
  cases x with
  | nan => exact absurd rfl hx
  | inf =>
    cases y with
    | nan => exact absurd rfl hy
    | inf => rfl
    | ninf => simp [mpmath_normal_cdf2, normalCdf2Go]
    | fin b => simp [mpmath_normal_cdf2, normalCdf2Go]
  | ninf =>
    cases y with
    | nan => exact absurd rfl hy
    | inf => simp [mpmath_normal_cdf2, normalCdf2Go]
    | ninf => rfl
    | fin b => simp [mpmath_normal_cdf2, normalCdf2Go]
  | fin a =>
    cases y with
    | nan => exact absurd rfl hy
    | inf => simp [mpmath_normal_cdf2, normalCdf2Go]
    | ninf => simp [mpmath_normal_cdf2, normalCdf2Go]
    | fin b =>
      by_cases hr1 : r = fin 1
      · subst hr1
        simp only [mpmath_normal_cdf2, normalCdf2Go, reduceCtorEq, if_false, or_self,
          ite_false, if_pos rfl, ite_true]
        rcases lt_trichotomy a b with h | h | h
        · simp [MpVal.pymin, MpVal.lt, h, asymm h, not_lt.mpr h.le]
        · subst h; rfl
        · simp [MpVal.pymin, MpVal.lt, h, asymm h, not_lt.mpr h.le]
      · by_cases hrm1 : r = fin (-1)
        · subst hrm1
          have e1 : (fin (-1) : MpVal) ≠ fin 1 := by simp; norm_num
          simp only [mpmath_normal_cdf2, normalCdf2Go, reduceCtorEq, if_false, or_self,
            ite_false, e1, if_pos rfl, ite_true, if_neg e1]
          by_cases hab : a ≤ -b
          · have hba : b ≤ -a := by linarith
            simp [MpVal.le, MpVal.neg, hab, hba]
          · have hba : ¬(b ≤ -a) := by intro h; apply hab; linarith
            simp only [MpVal.le, MpVal.neg, hab, hba, decide_eq_true_eq, if_false,
              ite_false]
            simp [MpVal.sub, MpVal.add, MpVal.neg, ncdfM, hab, hba]
            have ha := href a
            have hb := href b
            linarith
        · rcases lt_trichotomy |a| |b| with habs | habs | habs
          · have c1 : MpVal.lt (mabs (fin a)) (mabs (fin b)) = true := by
              simp [MpVal.lt, MpVal.mabs, habs]
            have c2 : MpVal.lt (mabs (fin b)) (mabs (fin a)) = false := by
              simp [MpVal.lt, MpVal.mabs]; linarith
            simp only [mpmath_normal_cdf2, normalCdf2Go, reduceCtorEq, if_false, or_self,
              ite_false, hr1, hrm1, c1, c2, if_true, ite_true]
          · have c1 : MpVal.lt (mabs (fin a)) (mabs (fin b)) = false := by
              simp [MpVal.lt, MpVal.mabs]; linarith
            have c2 : MpVal.lt (mabs (fin b)) (mabs (fin a)) = false := by
              simp [MpVal.lt, MpVal.mabs]; linarith
            rcases abs_eq_abs.mp habs with heq | hne
            · subst heq; rfl
            · have hb : b = -a := by linarith
              subst hb
              by_cases hneg : MpVal.lt r (fin 0) = true
              · have k1 : MpVal.neg r ≠ fin 1 := by
                  cases r with
                  | fin c =>
                    simp only [MpVal.neg, ne_eq, MpVal.fin.injEq]
                    intro h; apply hrm1; congr 1; linarith
                  | inf => simp [MpVal.lt] at hneg
                  | ninf => simp [MpVal.neg]
                  | nan => simp [MpVal.lt] at hneg
                have k2 : MpVal.neg r ≠ fin (-1) := by
                  cases r with
                  | fin c =>
                    simp only [MpVal.neg, ne_eq, MpVal.fin.injEq]
                    intro h; apply hr1; congr 1; linarith
                  | inf => simp [MpVal.lt] at hneg
                  | ninf => simp [MpVal.neg]
                  | nan => simp [MpVal.lt] at hneg
                have k3 : MpVal.lt (MpVal.neg r) (fin 0) = false := by
                  cases r with
                  | fin c =>
                    have hc : c < 0 := by simpa [MpVal.lt] using hneg
                    simp [MpVal.neg, MpVal.lt]; linarith
                  | inf => simp [MpVal.lt] at hneg
                  | ninf => simp [MpVal.neg, MpVal.lt]
                  | nan => simp [MpVal.lt] at hneg
                have hab1 : ¬(|a| < |(-a)|) := by simp [abs_neg]
                have hab2 : ¬(|(-a)| < |a|) := by simp [abs_neg]
                rcases lt_trichotomy a 0 with hz | hz | hz
                · have hs1 : ¬((0:ℚ) < a + a) := by linarith
                  have hs2 : (0:ℚ) < -a + -a := by linarith
                  have hle2 : ¬(-a ≤ a) := by linarith
                  simp only [mpmath_normal_cdf2, normalCdf2Go, neg_fin, neg_neg, lt_fin,
                    le_fin, add_fin, sub_fin, mabs_fin, ncdfM_fin, hr1, hrm1, hab1, hab2,
                    hneg, k1, k2, k3, hs1, hs2, hle2, lt_self_iff_false, decide_False,
                    decide_True, reduceCtorEq, if_false, ite_false, if_true, ite_true,
                    or_self, Bool.false_eq_true, decide_eq_true_eq, if_neg, not_false_iff]
                  ring_nf
                · subst hz
                  norm_num
                · have hs1 : (0:ℚ) < a + a := by linarith
                  have hs2 : ¬((0:ℚ) < -a + -a) := by linarith
                  have hle1 : ¬(a ≤ -a) := by linarith
                  simp only [mpmath_normal_cdf2, normalCdf2Go, neg_fin, neg_neg, lt_fin,
                    le_fin, add_fin, sub_fin, mabs_fin, ncdfM_fin, hr1, hrm1, hab1, hab2,
                    hneg, k1, k2, k3, hs1, hs2, hle1, lt_self_iff_false, decide_False,
                    decide_True, reduceCtorEq, if_false, ite_false, if_true, ite_true,
                    or_self, Bool.false_eq_true, decide_eq_true_eq, if_neg, not_false_iff]
                  ring_nf
              · have hnn : MpVal.lt r (fin 0) = false := by
                  simpa using hneg
                have s1 : MpVal.lt (fin 0) (MpVal.add (fin a) (fin (-a))) = false := by
                  simp [MpVal.lt, MpVal.add]
                have s2 : MpVal.lt (fin 0) (MpVal.add (fin (-a)) (fin a)) = false := by
                  simp [MpVal.lt, MpVal.add]
                simp only [mpmath_normal_cdf2, normalCdf2Go, reduceCtorEq, if_false,
                  or_self, ite_false, hr1, hrm1, c1, c2, hnn, s1, s2,
                  Bool.false_eq_true]
                rw [integrand_symm]
          · have c1 : MpVal.lt (mabs (fin a)) (mabs (fin b)) = false := by
              simp [MpVal.lt, MpVal.mabs]; linarith
            have c2 : MpVal.lt (mabs (fin b)) (mabs (fin a)) = true := by
              simp [MpVal.lt, MpVal.mabs, habs]
            simp only [mpmath_normal_cdf2, normalCdf2Go, reduceCtorEq, if_false, or_self,
              ite_false, hr1, hrm1, c1, c2, if_true, ite_true]

/-- Witness for `normal_cdf2_symmetric` at `x = 0`, `y = 1`, `r = 1/2`,
with `ncdfQ` the constant `1/2` (which satisfies the reflection identity). -/
theorem normal_cdf2_symmetric_witness :
    (mpmath_normal_cdf2 reflPrims (fin 0) (fin 1) (fin (1/2))).val =
      (mpmath_normal_cdf2 reflPrims (fin 1) (fin 0) (fin (1/2))).val :=
  normal_cdf2_symmetric reflPrims (fun t => by norm_num [reflPrims]) (fin 0) (fin 1)
    (fin (1/2)) (by simp) (by simp)

/-- The hardcoded override table of `normal_cdf_ln2`. -/
def ln2_table : List ((MpVal × MpVal × MpVal) × ℚ) :=
  [((fin (-0.299999999999999988897769753748434595763683319091796875),
     fin (-0.299999999999999988897769753748434595763683319091796875),
     fin (-0.99999899999999997124433548378874547779560089111328125)),
    -90020.4997847132695760821045836463571450496491084868602301611),
   ((fin (-0.1000000000000000055511151231257827021181583404541015625),
     fin (-0.1000000000000000055511151231257827021181583404541015625),
     fin (-0.99999899999999997124433548378874547779560089111328125)),
    -10018.3026957438325237319456255040365689256268122985682785824),
   ((fin (-0.1000000000000000055511151231257827021181583404541015625),
     fin (-0.1000000000000000055511151231257827021181583404541015625),
     fin (-0.99999000000000004551026222543441690504550933837890625)),
    -1014.85016355878529115329386335426754801497185281882358946348),
   ((fin (-0.1000000000000000055511151231257827021181583404541015625),
     fin (-0.1000000000000000055511151231257827021181583404541015625),
     fin (-0.9999000000000000110134124042815528810024261474609375)),
    -111.409512020775362450645082754211442935050576861888726532)]

/-- The hardcoded override table of `normal_cdf_integral_ratio`. -/
def ratio_table : List ((MpVal × MpVal × MpVal) × ℚ) :=
  [((fin (-39062.4923802060075104236602783203125),
     fin (39062.5011106818928965367376804351806640625),
     fin (-0.9999998333405668571316482484689913690090179443359375)),
    0.000025600004960154713498351213672772546931354593117186546685502492546785021612),
   ((fin (-824.4368021638800883010844700038433074951171875),
     fin (-23300.71373148090788163244724273681640625),
     fin (-0.9991576459172382129736433853395283222198486328125)),
    6.9859450855259114e-8),
   ((fin (790.8036889243788891690201126039028167724609375),
     fin (-1081777102.232640743255615234375),
     fin (-0.9458744064347397451086862929514609277248382568359375)),
    1.0293108592794333e-10),
   ((fin (790.8036889243788891690201126039028167724609375),
     fin (-1081776354979.671875),
     fin (-0.9458744064347397451086862929514609277248382568359375)),
    1.0293107755790882e-13)]

/-- **C5.**  For each argument triple listed verbatim in the hardcoded
override tables of `normal_cdf_ln2` (lines 90-98) and
`normal_cdf_integral_ratio` (lines 239-249), the function returns the
precomputed literal result without invoking the general algorithm; for
every triple not in the table, the general computation path is taken. -/
theorem override_tables_dispatch (P : Prims) (x y r : MpVal) :
    (∀ L, ((x, y, r), L) ∈ ln2_table → normal_cdf_ln2 P x y r = ⟨fin L, false⟩) ∧
      ((x, y, r) ∉ ln2_table.map Prod.fst → (normal_cdf_ln2 P x y r).general = true) ∧
      (∀ L, ((x, y, r), L) ∈ ratio_table →
        normal_cdf_integral_ratio P x y r = ⟨fin L, false⟩) ∧
      ((x, y, r) ∉ ratio_table.map Prod.fst →
        (normal_cdf_integral_ratio P x y r).general = true) := by
  refine ⟨?_, ?_, ?_, ?_⟩
  · intro L hL
    simp only [ln2_table, List.mem_cons, List.not_mem_nil, or_false, Prod.mk.injEq] at hL
    rcases hL with ⟨⟨rfl, rfl, rfl⟩, rfl⟩ | ⟨⟨rfl, rfl, rfl⟩, rfl⟩ |
      ⟨⟨rfl, rfl, rfl⟩, rfl⟩ | ⟨⟨rfl, rfl, rfl⟩, rfl⟩ <;>
      norm_num [normal_cdf_ln2]
  · intro hL
    simp only [ln2_table, List.map_cons, List.map_nil, List.mem_cons, List.not_mem_nil,
      or_false, not_or] at hL
    obtain ⟨n1, n2, n3, n4⟩ := hL
    rw [normal_cdf_ln2]
    rw [if_neg (by rintro ⟨rfl, rfl, rfl⟩; exact n1 rfl)]
    rw [if_neg (by rintro ⟨rfl, rfl, rfl⟩; exact n2 rfl)]
    rw [if_neg (by rintro ⟨rfl, rfl, rfl⟩; exact n3 rfl)]
    rw [if_neg (by rintro ⟨rfl, rfl, rfl⟩; exact n4 rfl)]
  · intro L hL
    simp only [ratio_table, List.mem_cons, List.not_mem_nil, or_false, Prod.mk.injEq] at hL
    rcases hL with ⟨⟨rfl, rfl, rfl⟩, rfl⟩ | ⟨⟨rfl, rfl, rfl⟩, rfl⟩ |
      ⟨⟨rfl, rfl, rfl⟩, rfl⟩ | ⟨⟨rfl, rfl, rfl⟩, rfl⟩ <;>
      norm_num [normal_cdf_integral_ratio]
  · intro hL
    simp only [ratio_table, List.map_cons, List.map_nil, List.mem_cons, List.not_mem_nil,
      or_false, not_or] at hL
    obtain ⟨n1, n2, n3, n4⟩ := hL
    rw [normal_cdf_integral_ratio]
    rw [if_neg (by rintro ⟨rfl, rfl, rfl⟩; exact n1 rfl)]
    rw [if_neg (by rintro ⟨rfl, rfl, rfl⟩; exact n2 rfl)]
    rw [if_neg (by rintro ⟨rfl, rfl, rfl⟩; exact n3 rfl)]
    rw [if_neg (by rintro ⟨rfl, rfl, rfl⟩; exact n4 rfl)]
    by_cases hz : normal_cdf_integral P x y r = fin 0 <;> simp [hz]

/-- Witness for `override_tables_dispatch`: the first entry of each table,
and the out-of-table triple `(inf, 0, 0)`. -/
theorem override_tables_dispatch_witness :
    normal_cdf_ln2 trivPrims
        (fin (-0.299999999999999988897769753748434595763683319091796875))
        (fin (-0.299999999999999988897769753748434595763683319091796875))
        (fin (-0.99999899999999997124433548378874547779560089111328125)) =
      ⟨fin (-90020.4997847132695760821045836463571450496491084868602301611), false⟩ ∧
      (normal_cdf_ln2 trivPrims inf (fin 0) (fin 0)).general = true ∧
      normal_cdf_integral_ratio trivPrims
          (fin (-39062.4923802060075104236602783203125))
          (fin (39062.5011106818928965367376804351806640625))
          (fin (-0.9999998333405668571316482484689913690090179443359375)) =
        ⟨fin (0.000025600004960154713498351213672772546931354593117186546685502492546785021612),
          false⟩ ∧
      (normal_cdf_integral_ratio trivPrims inf (fin 0) (fin 0)).general = true :=
  ⟨(override_tables_dispatch trivPrims _ _ _).1 _ (List.Mem.head _),
    (override_tables_dispatch trivPrims inf (fin 0) (fin 0)).2.1 (by simp [ln2_table]),
    (override_tables_dispatch trivPrims _ _ _).2.2.1 _ (List.Mem.head _),
    (override_tables_dispatch trivPrims inf (fin 0) (fin 0)).2.2.2 (by simp [ratio_table])⟩

/-- **C6.**  `print_error_bound` emits a truncation-error bound annotation
if and only if the generated coefficient sequence alternates in sign from
some point onward (equivalently, its last two entries have different
signs - the check the source performs at line 335); when the coefficients
do not alternate, bound computation is skipped entirely (the function
totally returns `none`) and no error is raised. -/
theorem error_bound_iff_alternating (d l : ℚ) (name : String) (len : ℕ)
    (coeffs : List ℚ) (nextc : ℚ) :
    (print_error_bound d l name len coeffs nextc).isSome = true ↔
      ∃ i, i + 2 ≤ coeffs.length ∧ ∀ j, i ≤ j → j + 2 ≤ coeffs.length →
        signQ (coeffs.getD (j + 1) 0) ≠ signQ (coeffs.getD j 0) := by
  constructor
  · intro h
    have halt : signQ (coeffs.getD (coeffs.length - 1) 0) ≠
        signQ (coeffs.getD (coeffs.length - 2) 0) := by
      by_contra hc
      simp only [print_error_bound] at h
      rw [if_neg (not_not_intro hc)] at h
      simp at h
    have hlen : 2 ≤ coeffs.length := by
      by_contra hl
      push_neg at hl
      have he : coeffs.length - 1 = coeffs.length - 2 := by omega
      exact halt (by rw [he])
    refine ⟨coeffs.length - 2, by omega, ?_⟩
    intro j h1 h2
    have hje : j = coeffs.length - 2 := by omega
    subst hje
    rw [show coeffs.length - 2 + 1 = coeffs.length - 1 from by omega]
    exact halt
  · rintro ⟨i, hi, hj⟩
    have h1 := hj (coeffs.length - 2) (by omega) (by omega)
    rw [show coeffs.length - 2 + 1 = coeffs.length - 1 from by omega] at h1
    simp only [print_error_bound]
    rw [if_pos h1]
    split_ifs <;> rfl

/-- **C7.**  For an alternating series, the emitted domain radius is
`(offset * machineEpsilon / 2 / nextTerm) ** (1 / order)` - represented
exactly by the pair `(base, order)` with
`base = offset * ulp1 / 2 / |nextc|` - where `nextTerm = |nextc|` is the
magnitude of the first omitted coefficient, `machineEpsilon` is the literal
`2.220446049250313e-16`, and `order` equals the series length, reduced by
one for each leading zero coefficient skipped when the series-specific
offset is zero and a later nonzero coefficient is used instead
(GenerateSeries.py lines 358-369). -/
theorem error_bound_radius_formula (d l : ℚ) (name : String) (len : ℕ)
    (coeffs : List ℚ) (nextc : ℚ)
    (halt : signQ (coeffs.getD (coeffs.length - 1) 0) ≠
      signQ (coeffs.getD (coeffs.length - 2) 0)) :
    ∃ ann, print_error_bound d l name len coeffs nextc = some ann ∧
      ann.nextTerm = |nextc| ∧
      ann.base = ann.offset * ulp1 / 2 / |nextc| ∧
      ((series_offset d l name coeffs ≠ 0 →
          ann.offset = series_offset d l name coeffs ∧ ann.order = len) ∧
        (series_offset d l name coeffs = 0 → coeffs.getD 1 0 ≠ 0 →
          ann.offset = |coeffs.getD 1 0| ∧ ann.order = len - 1) ∧
        (series_offset d l name coeffs = 0 → coeffs.getD 1 0 = 0 →
          ann.offset = |coeffs.getD 2 0| ∧ ann.order = len - 2)) := by
  by_cases h0 : series_offset d l name coeffs = 0
  · by_cases h1 : coeffs.getD 1 0 = 0
    · refine ⟨⟨|nextc|, |coeffs.getD 2 0|, |coeffs.getD 2 0| * ulp1 / 2 / |nextc|,
        len - 2⟩, ?_, rfl, rfl, ?_⟩
      · simp only [print_error_bound]
        rw [if_pos halt, if_pos h0, if_pos (abs_eq_zero.mpr h1)]
      · exact ⟨fun hc => absurd h0 hc, fun _ hc => absurd h1 hc, fun _ _ => ⟨rfl, rfl⟩⟩
    · refine ⟨⟨|nextc|, |coeffs.getD 1 0|, |coeffs.getD 1 0| * ulp1 / 2 / |nextc|,
        len - 1⟩, ?_, rfl, rfl, ?_⟩
      · simp only [print_error_bound]
        rw [if_pos halt, if_pos h0, if_neg (fun hc => h1 (abs_eq_zero.mp hc))]
      · exact ⟨fun hc => absurd h0 hc, fun _ _ => ⟨rfl, rfl⟩, fun _ hc => absurd hc h1⟩
  · refine ⟨⟨|nextc|, series_offset d l name coeffs,
      series_offset d l name coeffs * ulp1 / 2 / |nextc|, len⟩, ?_, rfl, rfl, ?_⟩
    · simp only [print_error_bound]
      rw [if_pos halt, if_neg h0]
    · exact ⟨fun _ => ⟨rfl, rfl⟩, fun hc => absurd hc h0, fun hc => absurd hc h0⟩

/-- Witness for `error_bound_radius_formula`: the digamma-asymptotic offset
with coefficients `[0, 1, -1]` and `nextc = 1/2`. -/
theorem error_bound_radius_formula_witness :
    ∃ ann, print_error_bound 0 0 "4: Digamma asymptotic" 3 [0, 1, -1] (1/2) = some ann ∧
      ann.nextTerm = |(1/2 : ℚ)| ∧
      ann.base = ann.offset * ulp1 / 2 / |(1/2 : ℚ)| ∧
      ((series_offset 0 0 "4: Digamma asymptotic" [0, 1, -1] ≠ 0 →
          ann.offset = series_offset 0 0 "4: Digamma asymptotic" [0, 1, -1] ∧
            ann.order = 3) ∧
        (series_offset 0 0 "4: Digamma asymptotic" [0, 1, -1] = 0 →
          [(0:ℚ), 1, -1].getD 1 0 ≠ 0 →
          ann.offset = |[(0:ℚ), 1, -1].getD 1 0| ∧ ann.order = 3 - 1) ∧
        (series_offset 0 0 "4: Digamma asymptotic" [0, 1, -1] = 0 →
          [(0:ℚ), 1, -1].getD 1 0 = 0 →
          ann.offset = |[(0:ℚ), 1, -1].getD 2 0| ∧ ann.order = 3 - 2)) :=
  error_bound_radius_formula 0 0 "4: Digamma asymptotic" 3 [0, 1, -1] (1/2) (by decide)

/-- The recurrence loop has produced `n + 1` coefficients after `n` steps. -/
lemma rfm1Loop_length (z : ℕ → ℚ) : ∀ n, (rfm1Loop z n).length = n + 1
  | 0 => rfl
  | n + 1 => by simp [rfm1Loop, rfm1Loop_length z n]

/-- One more loop iteration does not change the coefficients already built. -/
lemma rfm1Loop_getD_stable (z : ℕ → ℚ) (m k : ℕ) (hk : k ≤ m) :
    (rfm1Loop z (m + 1)).getD k 0 = (rfm1Loop z m).getD k 0 := by
  simp only [rfm1Loop]
  rw [List.getD_append _ _ _ _ (by rw [rfm1Loop_length]; omega)]

/-- Coefficients already built are stable under any number of further
iterations. -/
lemma rfm1Loop_getD_mono (z : ℕ → ℚ) :
    ∀ m n k, k ≤ n → n ≤ m → (rfm1Loop z m).getD k 0 = (rfm1Loop z n).getD k 0 := by
  intro m
  induction m with
  | zero =>
    intro n k h1 h2
    have hn : n = 0 := by omega
    subst hn
    rfl
  | succ m ih =>
    intro n k h1 h2
    rcases Nat.eq_or_lt_of_le h2 with he | hlt
    · rw [he]
    · rw [rfm1Loop_getD_stable z m k (by omega)]
      exact ih n k h1 (by omega)

/-- The coefficient appended by iteration `k + 1` is the convolution of the
previous coefficients with the zeta-derived constants, divided by `k + 1`. -/
lemma rfm1Loop_getD_last (z : ℕ → ℚ) (k : ℕ) :
    (rfm1Loop z (k + 1)).getD (k + 1) 0 =
      (∑ i ∈ Finset.range (k + 1), (rfm1Loop z k).getD i 0 * z (k - i)) / (k + 1) := by
  simp only [rfm1Loop]
  rw [List.getD_append_right _ _ _ _ (by rw [rfm1Loop_length])]
  rw [rfm1Loop_length]
  simp

/-- **C8.**  In `get_reciprocal_factorial_minus_1_coefficients`, for every
`k >= 1` the internal coefficient `c[k]` equals `(1/k)` times the sum over
`i < k` of `c[i] * zetas[k-i-1]`, with `c[0] = 1`; the returned coefficient
at index `0` is exactly `0` and the returned coefficient at every index
`k >= 1` is `c[k]` (GenerateSeries.py lines 287-296).  The 500-digit
evaluation of the constants is abstracted into the `zetas` parameter. -/
theorem reciprocal_factorial_recurrence (z : ℕ → ℚ) (count k : ℕ)
    (hk : 1 ≤ k) (hkc : k < count) :
    (rfm1Loop z (count - 1)).getD 0 0 = 1 ∧
      (rfm1Loop z (count - 1)).getD k 0 =
        (∑ i ∈ Finset.range k, (rfm1Loop z (count - 1)).getD i 0 * z (k - i - 1)) / k ∧
      (get_reciprocal_factorial_minus_1_coefficients z count).getD 0 0 = 0 ∧
      (get_reciprocal_factorial_minus_1_coefficients z count).getD k 0 =
        (rfm1Loop z (count - 1)).getD k 0 := by
  have hc1 : k ≤ count - 1 := by omega
  refine ⟨?_, ?_, ?_, ?_⟩
  · rw [rfm1Loop_getD_mono z (count - 1) 0 0 (le_refl 0) (by omega)]
    rfl
  · rw [rfm1Loop_getD_mono z (count - 1) k k (le_refl k) hc1]
    obtain ⟨m, rfl⟩ : ∃ m, k = m + 1 := ⟨k - 1, by omega⟩
    rw [rfm1Loop_getD_last]
    congr 1
    · apply Finset.sum_congr rfl
      intro i hi
      rw [Finset.mem_range] at hi
      rw [rfm1Loop_getD_mono z (count - 1) m i (by omega) (by omega)]
      rw [show m + 1 - i - 1 = m - i from by omega]
    · push_cast
      ring
  · simp only [get_reciprocal_factorial_minus_1_coefficients]
    rw [List.getD_eq_getElem?_getD, List.getElem?_map, List.getElem?_range (by omega : 0 < count)]
    simp
  · simp only [get_reciprocal_factorial_minus_1_coefficients]
    rw [List.getD_eq_getElem?_getD, List.getElem?_map, List.getElem?_range hkc]
    have hk0 : k ≠ 0 := by omega
    simp [hk0]

/-- Witness for `reciprocal_factorial_recurrence` at
`zetas = const 1`, `count = 3`, `k = 1`. -/
theorem reciprocal_factorial_recurrence_witness :
    (rfm1Loop (fun _ => (1:ℚ)) (3 - 1)).getD 0 0 = 1 :=
  (reciprocal_factorial_recurrence (fun _ => 1) 3 1 (le_refl 1) (by decide)).1

/-- The rows produced by the loop body when processing starts with
`newrows` already holding `k` rows: row number `i` of the remaining input
is kept verbatim when its stored result is a sentinel or `5 < k + i`. -/
def rowsFrom (compute : List String → String) : ℕ → List CsvRow → List CsvRow
  | _, [] => []
  | k, row :: rest =>
    { row with
        expectedresult :=
          if isSentinel row.expectedresult ∨ 5 < k then row.expectedresult
          else compute row.args } :: rowsFrom compute (k + 1) rest

lemma processRows_eq_rowsFrom (compute : List String → String) :
    ∀ rows acc, processRows compute acc rows = acc ++ rowsFrom compute acc.length rows := by
  intro rows
  induction rows with
  | nil => intro acc; simp [processRows, rowsFrom]
  | cons row rest ih =>
    intro acc
    rw [processRows, rowsFrom, ih]
    simp

lemma rowsFrom_length (compute : List String → String) :
    ∀ rows k, (rowsFrom compute k rows).length = rows.length := by
  intro rows
  induction rows with
  | nil => intro k; rfl
  | cons row rest ih => intro k; simp [rowsFrom, ih]

lemma rowsFrom_args (compute : List String → String) :
    ∀ rows k i, ((rowsFrom compute k rows).getD i ⟨[], ""⟩).args =
      ((rows.getD i ⟨[], ""⟩).args) := by
  intro rows
  induction rows with
  | nil => intro k i; rfl
  | cons row rest ih =>
    intro k i
    cases i with
    | zero => rfl
    | succ i =>
      simp only [rowsFrom, List.getD_cons_succ]
      exact ih (k + 1) i

lemma rowsFrom_sentinel (compute : List String → String) :
    ∀ rows k i, isSentinel ((rows.getD i ⟨[], ""⟩).expectedresult) = true →
      ((rowsFrom compute k rows).getD i ⟨[], ""⟩).expectedresult =
        (rows.getD i ⟨[], ""⟩).expectedresult := by
  intro rows
  induction rows with
  | nil => intro k i h; rfl
  | cons row rest ih =>
    intro k i h
    cases i with
    | zero =>
      simp only [List.getD_cons_zero] at h
      simp [rowsFrom, h]
    | succ i =>
      simp only [List.getD_cons_succ] at h
      simp only [rowsFrom, List.getD_cons_succ]
      exact ih (k + 1) i h

/-- **C10.**  The csv-processing loop writes the header and every argument
column of every row back unchanged - only the `expectedresult` field of a
row may differ from the input - and any row whose existing `expectedresult`
is the literal token `Infinity`, `-Infinity`, or `NaN` keeps that token
verbatim (ComputeSpecialFunctionsTestValues.py lines 323-352). -/
theorem csv_frame_preservation (compute : List String → String)
    (fieldnames : List String) (rows : List CsvRow) :
    (main_csv_loop compute fieldnames rows).1 = fieldnames ∧
      (main_csv_loop compute fieldnames rows).2.length = rows.length ∧
      ∀ i, ((main_csv_loop compute fieldnames rows).2.getD i ⟨[], ""⟩).args =
          (rows.getD i ⟨[], ""⟩).args ∧
        (isSentinel ((rows.getD i ⟨[], ""⟩).expectedresult) = true →
          ((main_csv_loop compute fieldnames rows).2.getD i ⟨[], ""⟩).expectedresult =
            (rows.getD i ⟨[], ""⟩).expectedresult) := by
  refine ⟨rfl, ?_, ?_⟩
  · simp [main_csv_loop, processRows_eq_rowsFrom, rowsFrom_length]
  · intro i
    constructor
    · simp only [main_csv_loop, processRows_eq_rowsFrom]
      simpa using rowsFrom_args compute rows 0 i
    · intro h
      simp only [main_csv_loop, processRows_eq_rowsFrom]
      simpa using rowsFrom_sentinel compute rows 0 i h

/-- **C9** (evidence for the code bug).  The per-row guard at line 334 reads
`... or len(newrows) > 5`, so a row is only re-evaluated when it is among
the first six rows of the file: the same row (arguments `["2"]`, stored
result `"0"`) keeps its stored result when it sits at index 6 but is
recomputed when it sits at index 0, although the two input files are
permutations of each other.  This contradicts the script docstring ("it
evaluates that function for every set of arguments present in that file"):
the result written for a row depends on the row position. -/
theorem csv_row_position_dependence :
    (main_csv_loop (fun _ => "computed") ["arg0", "expectedresult"]
        [⟨["1"], "Infinity"⟩, ⟨["1"], "Infinity"⟩, ⟨["1"], "Infinity"⟩, ⟨["1"], "Infinity"⟩,
         ⟨["1"], "Infinity"⟩, ⟨["1"], "Infinity"⟩, ⟨["2"], "0"⟩]).2.getD 6 ⟨[], ""⟩ =
      ⟨["2"], "0"⟩ ∧
      (main_csv_loop (fun _ => "computed") ["arg0", "expectedresult"]
          [⟨["2"], "0"⟩, ⟨["1"], "Infinity"⟩, ⟨["1"], "Infinity"⟩, ⟨["1"], "Infinity"⟩,
           ⟨["1"], "Infinity"⟩, ⟨["1"], "Infinity"⟩, ⟨["1"], "Infinity"⟩]).2.getD 0 ⟨[], ""⟩ =
        ⟨["2"], "computed"⟩ := by decide

/-- Witness for `csv_frame_preservation`: a one-row file whose stored
result is the sentinel `NaN`. -/
theorem csv_frame_preservation_witness :
    ((main_csv_loop (fun _ => "X") ["arg0", "expectedresult"]
        [⟨["1"], "NaN"⟩]).2.getD 0 ⟨[], ""⟩).expectedresult = "NaN" :=
  ((csv_frame_preservation (fun _ => "X") ["arg0", "expectedresult"]
      [⟨["1"], "NaN"⟩]).2.2 0).2 (by decide)

end InferTestValues